import Mathlib

/-!
Verification of the email content extraction engine and resilient delivery
pipeline of the cloudmail-to-telegram worker (src/worker.js).

JavaScript strings are modelled as `List Char` (one entry per Unicode code
point).  Pure functions of the source are translated to Lean functions with
the same names; the mutable rate-limit `Map` becomes explicit state passing
over an association list, and the network transport becomes an oracle
`Nat → TResp` giving the response to each successive `fetch` call.
-/

namespace Worker

/-- Character of the double-quote, written via its code to keep literals plain. -/
def dquoteChar : Char := Char.ofNat 34

/-- Character of the single quote / apostrophe. -/
def squoteChar : Char := Char.ofNat 39

/-- The JavaScript `\s` character class (ECMAScript WhiteSpace ∪ LineTerminator):
tab, LF, VT, FF, CR, space, NBSP, Ogham space, the U+2000–U+200A range,
LS, PS, NNBSP, MMSP, ideographic space and the BOM. -/
def jsWhitespace (c : Char) : Bool :=
  let n := c.toNat
  n == 9 || n == 10 || n == 11 || n == 12 || n == 13 || n == 32 ||
  n == 0xA0 || n == 0x1680 || (0x2000 ≤ n && n ≤ 0x200A) ||
  n == 0x2028 || n == 0x2029 || n == 0x202F || n == 0x205F ||
  n == 0x3000 || n == 0xFEFF

/-- Characters excluded by the `.` regex atom: LF, CR, LS, PS. -/
def isLineTerm (c : Char) : Bool :=
  let n := c.toNat
  n == 10 || n == 13 || n == 0x2028 || n == 0x2029

/-- Does the second list start with the first one (literal match)? -/
def startsWithL : List Char → List Char → Bool
  | [], _ => true
  | _ :: _, [] => false
  | p :: ps, c :: cs => p == c && startsWithL ps cs

/-- JavaScript `String.prototype.includes` restricted to our needs:
does `s` contain `pat` as a contiguous substring? -/
def containsSub (pat : List Char) : List Char → Bool
  | [] => startsWithL pat []
  | c :: cs => startsWithL pat (c :: cs) || containsSub pat cs

/-- JavaScript `indexOf` returning the position of the first occurrence of
`pat` in the scanned list, `none` standing for `-1`. -/
def findSubPos (pat : List Char) : List Char → Option Nat
  | [] => if pat = [] then some 0 else none
  | c :: cs =>
    if startsWithL pat (c :: cs) then some 0
    else (findSubPos pat cs).map (· + 1)

/-- JavaScript `String.prototype.trim`: strip `\s` characters from both ends. -/
def jsTrim (s : List Char) : List Char :=
  (((s.dropWhile jsWhitespace).reverse).dropWhile jsWhitespace).reverse

/-- Lower-casing used to model case-insensitive (`/i`) matching of the
ASCII-only patterns in the source. -/
def toLowerL (s : List Char) : List Char := s.map Char.toLower

/-- Case-insensitive version of `startsWithL`; the pattern is given in
lower case. -/
def startsWithCI : List Char → List Char → Bool
  | [], _ => true
  | _ :: _, [] => false
  | p :: ps, c :: cs => p == c.toLower && startsWithCI ps cs

/-- Length of the longest whitespace run at the head of the list. -/
def countLeadWs : List Char → Nat
  | [] => 0
  | c :: cs => if jsWhitespace c then countLeadWs cs + 1 else 0

/-- Recursion core of `splitOnSub`; the fuel, instantiated with the input
length, only serves to make the recursion structural (one unit is spent per
character passed, so it never runs out). -/
def splitOnSubGo (s0 : Char) (sep : List Char) : Nat → List Char → List (List Char)
  | _, [] => [[]]
  | 0, l => [l]
  | fuel + 1, c :: cs =>
    if startsWithL (s0 :: sep) (c :: cs) then
      [] :: splitOnSubGo s0 sep fuel (List.drop sep.length cs)
    else
      match splitOnSubGo s0 sep fuel cs with
      | [] => [[c]]
      | r :: rs => (c :: r) :: rs

/-- JavaScript `String.prototype.split` on a non-empty literal separator
`s0 :: sep`: non-overlapping occurrences, scanned left to right. -/
def splitOnSub (s0 : Char) (sep : List Char) (l : List Char) : List (List Char) :=
  splitOnSubGo s0 sep l.length l

/-- Recursion core of `replaceSub`, fuelled like `splitOnSubGo`. -/
def replaceSubGo (p0 : Char) (ps rep : List Char) : Nat → List Char → List Char
  | _, [] => []
  | 0, l => l
  | fuel + 1, c :: cs =>
    if startsWithL (p0 :: ps) (c :: cs) then
      rep ++ replaceSubGo p0 ps rep fuel (List.drop ps.length cs)
    else
      c :: replaceSubGo p0 ps rep fuel cs

/-- JavaScript global replace of a non-empty literal pattern `p0 :: ps` by
`rep`: leftmost, non-overlapping. -/
def replaceSub (p0 : Char) (ps rep l : List Char) : List Char :=
  replaceSubGo p0 ps rep l.length l

/-- Length of the newline run at the head of the list. -/
def countNL : List Char → Nat
  | [] => 0
  | c :: cs => if c == Char.ofNat 10 then countNL cs + 1 else 0

/-- Recursion core of `collapseNL`, fuelled like `splitOnSubGo`. -/
def collapseNLGo : Nat → List Char → List Char
  | _, [] => []
  | 0, l => l
  | fuel + 1, c :: cs =>
    if c == Char.ofNat 10 && decide (2 ≤ countNL cs) then
      c :: c :: collapseNLGo fuel (List.drop (countNL cs) cs)
    else
      c :: collapseNLGo fuel cs

/-- The global replace `/\n{3,}/g → "\n\n"`: every maximal run of three or
more newlines collapses to exactly two. -/
def collapseNL (l : List Char) : List Char :=
  collapseNLGo l.length l

/-- The base64 alphabet, indexed by sextet value. -/
def b64Alpha (n : Nat) : Char :=
  (("ABCDEFGHIJKLMNOPQRSTUVWXYZabcdefghijklmnopqrstuvwxyz0123456789+/" : String).data).getD n (Char.ofNat 65)

/-- Value of a base64 alphabet character, `none` on anything else. -/
def b64CharVal (c : Char) : Option Nat :=
  let n := c.toNat
  if 65 ≤ n ∧ n ≤ 90 then some (n - 65)
  else if 97 ≤ n ∧ n ≤ 122 then some (n - 71)
  else if 48 ≤ n ∧ n ≤ 57 then some (n + 4)
  else if n = 43 then some 62
  else if n = 47 then some 63
  else none

/-- Map every character to its sextet value, failing on the first invalid one. -/
def mapCharVals : List Char → Option (List Nat)
  | [] => some []
  | c :: cs =>
    match b64CharVal c, mapCharVals cs with
    | some v, some vs => some (v :: vs)
    | _, _ => none

/-- Reassemble bytes from a list of sextets; a trailing group of two or three
sextets yields one or two bytes, discarding the leftover bits (forgiving
base64 semantics). -/
def sextetsToBytes : List Nat → List Nat
  | a :: b :: c :: d :: rest =>
    (a * 4 + b / 16) :: ((b % 16) * 16 + c / 4) :: ((c % 4) * 64 + d) ::
      sextetsToBytes rest
  | [a, b] => [a * 4 + b / 16]
  | [a, b, c] => [a * 4 + b / 16, (b % 16) * 16 + c / 4]
  | _ => []

/-- Remove one or two trailing padding characters, on the reversed list. -/
def dropPadRev (eqc : Char) : List Char → List Char
  | [] => []
  | [c] => if c == eqc then [] else [c]
  | c1 :: c2 :: t =>
    if c1 == eqc then (if c2 == eqc then t else c2 :: t) else c1 :: c2 :: t

/-- WHATWG `atob` (forgiving base64) on an input with all `\s` already
stripped: strip up to two trailing padding signs when the length is a
multiple of four, reject a leftover length of one, reject invalid
characters, then decode sextets to bytes.  `none` models the thrown
`InvalidCharacterError`. -/
def atobBytes (s : List Char) : Option (List Nat) :=
  let eqc : Char := Char.ofNat 61
  let s := if s.length % 4 == 0 then (dropPadRev eqc s.reverse).reverse else s
  if s.length % 4 == 1 then none
  else (mapCharVals s).map sextetsToBytes

/-- Standard base64 encoding with padding (the spec-side inverse used to
state the round-trip property). -/
def b64encode : List Nat → List Char
  | b1 :: b2 :: b3 :: rest =>
    b64Alpha (b1 / 4) :: b64Alpha ((b1 % 4) * 16 + b2 / 16) ::
    b64Alpha ((b2 % 16) * 4 + b3 / 64) :: b64Alpha (b3 % 64) :: b64encode rest
  | [b1, b2] =>
    [b64Alpha (b1 / 4), b64Alpha ((b1 % 4) * 16 + b2 / 16),
     b64Alpha ((b2 % 16) * 4), Char.ofNat 61]
  | [b1] =>
    [b64Alpha (b1 / 4), b64Alpha ((b1 % 4) * 16), Char.ofNat 61, Char.ofNat 61]
  | [] => []

/-- The sextet stream corresponding to a byte stream (no padding). -/
def byteSextets : List Nat → List Nat
  | b1 :: b2 :: b3 :: rest =>
    (b1 / 4) :: ((b1 % 4) * 16 + b2 / 16) :: ((b2 % 16) * 4 + b3 / 64) ::
      (b3 % 64) :: byteSextets rest
  | [b1, b2] => [b1 / 4, (b1 % 4) * 16 + b2 / 16, (b2 % 16) * 4]
  | [b1] => [b1 / 4, (b1 % 4) * 16]
  | [] => []

/-- Is a byte a UTF-8 continuation byte? -/
def isCont (b : Nat) : Bool := 0x80 ≤ b && b ≤ 0xBF

/-- Continuation step for a two-byte UTF-8 sequence. -/
def utf8Dec2 (b b2 : Nat) (k : Option (List Char)) : Option (List Char) :=
  if isCont b2 then k.map (fun r => Char.ofNat ((b - 0xC0) * 64 + (b2 - 0x80)) :: r)
  else none

/-- Continuation step for a three-byte UTF-8 sequence; the admissible range
of the first continuation byte depends on the lead byte (E0 forbids overlong
forms, ED forbids surrogates). -/
def utf8Dec3 (b b2 b3 : Nat) (k : Option (List Char)) : Option (List Char) :=
  if ((if b = 0xE0 then 0xA0 else 0x80) ≤ b2 && b2 ≤ (if b = 0xED then 0x9F else 0xBF))
      && isCont b3 then
    k.map (fun r => Char.ofNat ((b - 0xE0) * 4096 + (b2 - 0x80) * 64 + (b3 - 0x80)) :: r)
  else none

/-- Continuation step for a four-byte UTF-8 sequence; F0 forbids overlong
forms and F4 values beyond U+10FFFF. -/
def utf8Dec4 (b b2 b3 b4 : Nat) (k : Option (List Char)) : Option (List Char) :=
  if ((if b = 0xF0 then 0x90 else 0x80) ≤ b2 && b2 ≤ (if b = 0xF4 then 0x8F else 0xBF))
      && isCont b3 && isCont b4 then
    k.map (fun r => Char.ofNat ((b - 0xF0) * 262144 + (b2 - 0x80) * 4096 +
      (b3 - 0x80) * 64 + (b4 - 0x80)) :: r)
  else none

/-- Strict (fatal) UTF-8 decoding of a byte stream, following the WHATWG /
Unicode well-formedness table: overlong forms, surrogates and out-of-range
sequences are rejected with `none`, which models the `TypeError` thrown by
`TextDecoder("utf-8", {fatal: true})`.  The lead byte picks the sequence
length; missing continuation bytes or an invalid lead byte fail. -/
def utf8Decode : List Nat → Option (List Char)
  | [] => some []
  | b :: bs =>
    if b < 0x80 then (utf8Decode bs).map (fun r => Char.ofNat b :: r)
    else
      match bs with
      | [] => none
      | b2 :: bs2 =>
        if 0xC2 ≤ b ∧ b ≤ 0xDF then utf8Dec2 b b2 (utf8Decode bs2)
        else
          match bs2 with
          | [] => none
          | b3 :: bs3 =>
            if 0xE0 ≤ b ∧ b ≤ 0xEF then utf8Dec3 b b2 b3 (utf8Decode bs3)
            else
              match bs3 with
              | [] => none
              | b4 :: bs4 =>
                if 0xF0 ≤ b ∧ b ≤ 0xF4 then utf8Dec4 b b2 b3 b4 (utf8Decode bs4)
                else none

/-- UTF-8 encoding of one scalar value (spec-side, for the round-trip). -/
def utf8EncodeChar (c : Char) : List Nat :=
  if c.toNat < 0x80 then [c.toNat]
  else if c.toNat < 0x800 then [0xC0 + c.toNat / 64, 0x80 + c.toNat % 64]
  else if c.toNat < 0x10000 then
    [0xE0 + c.toNat / 4096, 0x80 + (c.toNat / 64) % 64, 0x80 + c.toNat % 64]
  else
    [0xF0 + c.toNat / 262144, 0x80 + (c.toNat / 4096) % 64,
     0x80 + (c.toNat / 64) % 64, 0x80 + c.toNat % 64]

/-- UTF-8 encoding of a text (spec-side, for the round-trip). -/
def utf8Encode : List Char → List Nat
  | [] => []
  | c :: cs => utf8EncodeChar c ++ utf8Encode cs

/-- One byte decoded by the WHATWG windows-1252 decoder: identity except on
0x80-0x9F, which map through the windows-1252 index (0x81, 0x8D, 0x8F, 0x90
and 0x9D stay at their C1 code points). -/
def win1252Char (b : Nat) : Char :=
  if b == 0x80 then Char.ofNat 0x20AC
  else if b == 0x82 then Char.ofNat 0x201A
  else if b == 0x83 then Char.ofNat 0x0192
  else if b == 0x84 then Char.ofNat 0x201E
  else if b == 0x85 then Char.ofNat 0x2026
  else if b == 0x86 then Char.ofNat 0x2020
  else if b == 0x87 then Char.ofNat 0x2021
  else if b == 0x88 then Char.ofNat 0x02C6
  else if b == 0x89 then Char.ofNat 0x2030
  else if b == 0x8A then Char.ofNat 0x0160
  else if b == 0x8B then Char.ofNat 0x2039
  else if b == 0x8C then Char.ofNat 0x0152
  else if b == 0x8E then Char.ofNat 0x017D
  else if b == 0x91 then Char.ofNat 0x2018
  else if b == 0x92 then Char.ofNat 0x2019
  else if b == 0x93 then Char.ofNat 0x201C
  else if b == 0x94 then Char.ofNat 0x201D
  else if b == 0x95 then Char.ofNat 0x2022
  else if b == 0x96 then Char.ofNat 0x2013
  else if b == 0x97 then Char.ofNat 0x2014
  else if b == 0x98 then Char.ofNat 0x02DC
  else if b == 0x99 then Char.ofNat 0x2122
  else if b == 0x9A then Char.ofNat 0x0161
  else if b == 0x9B then Char.ofNat 0x203A
  else if b == 0x9C then Char.ofNat 0x0153
  else if b == 0x9E then Char.ofNat 0x017E
  else if b == 0x9F then Char.ofNat 0x0178
  else Char.ofNat b

/-- The view of a byte stream produced by
`new TextDecoder("latin1").decode(bytes)`: the WHATWG Encoding Standard maps
the `latin1` label to the windows-1252 decoder, a single-byte decoder that
agrees with ISO-8859-1 everywhere except bytes 0x80-0x9F. -/
def latin1Decode (bs : List Nat) : List Char := bs.map win1252Char

/-- `decodeBase64Content`: strip all whitespace, `atob` to raw bytes, try
strict UTF-8, fall back to latin1; on an `atob` failure return the input
unchanged (the outer catch). -/
def decodeBase64Content (content : List Char) : List Char :=
  let cleaned := content.filter (fun c => !jsWhitespace c)
  match atobBytes cleaned with
  | none => content
  | some bytes =>
    match utf8Decode bytes with
    | some s => s
    | none => latin1Decode bytes

/-- First pass of `decodeQuotedPrintable`: the global replace
`/=\r?\n/g → ""` removing soft line breaks. -/
def removeSoftBreaksGo : Nat → List Char → List Char
  | _, [] => []
  | 0, l => l
  | fuel + 1, c :: cs =>
    if c == Char.ofNat 61 then
      match cs with
      | d :: rest =>
        if d == Char.ofNat 10 then removeSoftBreaksGo fuel rest
        else
          match rest with
          | e :: rest2 =>
            if d == Char.ofNat 13 && e == Char.ofNat 10 then removeSoftBreaksGo fuel rest2
            else c :: removeSoftBreaksGo fuel cs
          | [] => c :: removeSoftBreaksGo fuel cs
      | [] => [c]
    else c :: removeSoftBreaksGo fuel cs

/-- Entry point of the soft-break removal, with sufficient fuel. -/
def removeSoftBreaks (l : List Char) : List Char :=
  removeSoftBreaksGo l.length l

/-- Is the character an upper- or lower-case hexadecimal digit (the
`[A-F0-9]` class with the `i` flag)? -/
def isHexDig (c : Char) : Bool :=
  let n := c.toNat
  (48 ≤ n && n ≤ 57) || (65 ≤ n && n ≤ 70) || (97 ≤ n && n ≤ 102)

/-- Numeric value of a hexadecimal digit. -/
def hexVal (c : Char) : Nat :=
  let n := c.toNat
  if n ≤ 57 then n - 48 else if n ≤ 70 then n - 55 else n - 87

/-- Second pass of `decodeQuotedPrintable`: the global replace
`/=([A-F0-9]{2})/gi` by `String.fromCharCode(parseInt(hex, 16))`. -/
def decodeQPHexGo : Nat → List Char → List Char
  | _, [] => []
  | 0, l => l
  | fuel + 1, c :: cs =>
    if c == Char.ofNat 61 then
      match cs with
      | a :: b :: rest =>
        if isHexDig a && isHexDig b then
          Char.ofNat (16 * hexVal a + hexVal b) :: decodeQPHexGo fuel rest
        else c :: decodeQPHexGo fuel cs
      | [a] => c :: decodeQPHexGo fuel [a]
      | [] => [c]
    else c :: decodeQPHexGo fuel cs

/-- Entry point of the hexadecimal-escape decoding, with sufficient fuel. -/
def decodeQPHex (l : List Char) : List Char :=
  decodeQPHexGo l.length l

/-- `decodeQuotedPrintable`: remove soft line breaks, then decode `=XX`
hexadecimal escapes. -/
def decodeQuotedPrintable (content : List Char) : List Char :=
  decodeQPHex (removeSoftBreaks content)

/-- `decodeContent`: dispatch on the lower-cased transfer encoding; unknown
or absent encodings return the content unchanged, and the empty content
(falsy in the source) returns the empty string. -/
def decodeContent (content : List Char) (encoding : Option (List Char)) : List Char :=
  if content = [] then []
  else
    match encoding with
    | some e =>
      if toLowerL e = ("base64" : String).data then decodeBase64Content content
      else if toLowerL e = ("quoted-printable" : String).data then decodeQuotedPrintable content
      else content
    | none => content

/-- Candidate boundary capture at one position: the tail after `boundary=`
is matched against `["\x27]?([^"\x27\s]+)["\x27]?` (an optional quote, then a
non-empty run of characters that are neither quotes nor whitespace). -/
def boundaryCapAt (rest : List Char) : Option (List Char) :=
  let ok : Char → Bool := fun c => !(c == dquoteChar) && !(c == squoteChar) && !jsWhitespace c
  match rest with
  | [] => none
  | c :: cs =>
    if c == dquoteChar || c == squoteChar then
      let cap := cs.takeWhile ok
      if cap = [] then none else some cap
    else
      let cap := (c :: cs).takeWhile ok
      if cap = [] then none else some cap

/-- Leftmost match of `/boundary=["\x27]?([^"\x27\s]+)["\x27]?/i` over the raw
email, returning the captured boundary. -/
def findBoundary : List Char → Option (List Char)
  | [] => none
  | c :: cs =>
    if startsWithCI ("boundary=" : String).data (c :: cs) then
      match boundaryCapAt (List.drop 9 (c :: cs)) with
      | some cap => some cap
      | none => findBoundary cs
    else findBoundary cs

/-- `getPartScore`: exact, case-sensitive substring tests on the declared
content type of a part. -/
def getPartScore (part : List Char) : Nat :=
  if containsSub ("Content-Type: text/plain" : String).data part then 3
  else if containsSub ("Content-Type: text/html" : String).data part then 2
  else if containsSub ("Content-Type: text/" : String).data part then 1
  else 0

/-- The selection loop of `extractEmailContent`: keep the first part whose
score strictly exceeds the best score seen so far. -/
def selectBest : List (List Char) → Option (List Char) → Nat → Option (List Char)
  | [], best, _ => best
  | p :: ps, best, bestScore =>
    if bestScore < getPartScore p then selectBest ps (some p) (getPartScore p)
    else selectBest ps best bestScore

/-- Result record of the MIME extractor. -/
structure Extracted where
  body : List Char
  contentType : List Char
deriving DecidableEq

/-- Backtracking tail of a header regex: after the greedy `\s*` has consumed
`q + 1` characters it retreats until the capture class can match at least one
character organically, then the capture takes its maximal run. -/
def tryFrom (ok : Char → Bool) (rest : List Char) : Nat → Option (List Char)
  | 0 =>
    match rest with
    | c :: _ => if ok c then some (rest.takeWhile ok) else none
    | [] => none
  | q + 1 =>
    match rest.drop (q + 1) with
    | c :: _ =>
      if ok c then some ((rest.drop (q + 1)).takeWhile ok)
      else tryFrom ok rest q
    | [] => tryFrom ok rest q

/-- Match `\s*(<class>+)` at the start of `rest`, with the regex backtracking
semantics of a greedy `\s*` followed by a greedy one-or-more capture. -/
def matchTail (ok : Char → Bool) (rest : List Char) : Option (List Char) :=
  tryFrom ok rest (countLeadWs rest)

/-- Leftmost case-insensitive occurrence of `key` followed by a successful
`\s*(<class>+)` tail; a failed tail resumes the scan one character further,
as a regex engine does. -/
def findHeaderCap (key : List Char) (ok : Char → Bool) : List Char → Option (List Char)
  | [] => none
  | c :: cs =>
    if startsWithCI key (c :: cs) then
      match matchTail ok (List.drop key.length (c :: cs)) with
      | some cap => some cap
      | none => findHeaderCap key ok cs
    else findHeaderCap key ok cs

/-- The capture of `/Content-Transfer-Encoding:\s*(.+)/i` over a header
block, trimmed (`?.[1]?.trim()`). -/
def headerEncoding (headers : List Char) : Option (List Char) :=
  (findHeaderCap ("content-transfer-encoding:" : String).data
    (fun c => !isLineTerm c) headers).map jsTrim

/-- The capture of `/Content-Type:\s*([^;]+)/i` over a header block, trimmed;
a missing match or an empty (falsy) trim falls back to `text/plain`. -/
def headerContentType (headers : List Char) : List Char :=
  match (findHeaderCap ("content-type:" : String).data
      (fun c => !(c == Char.ofNat 59)) headers).map jsTrim with
  | none => ("text/plain" : String).data
  | some v => if v = [] then ("text/plain" : String).data else v

/-- The header/body separator `"\r\n\r\n"`. -/
def crlf2 : List Char := [Char.ofNat 13, Char.ofNat 10, Char.ofNat 13, Char.ofNat 10]

/-- `extractPartContent`: split a part at the first blank line, read the
transfer encoding and content type from the header block, decode the body. -/
def extractPartContent (part : List Char) : Extracted :=
  match findSubPos crlf2 part with
  | none => ⟨("Invalid part format" : String).data, ("text/plain" : String).data⟩
  | some i =>
    let headers := part.take i
    let content := jsTrim (part.drop (i + 4))
    ⟨decodeContent content (headerEncoding headers), headerContentType headers⟩

/-- `extractSimpleEmailBody`: the same split for a non-multipart payload,
with its own sentinel. -/
def extractSimpleEmailBody (rawEmail : List Char) : Extracted :=
  match findSubPos crlf2 rawEmail with
  | none => ⟨("No body content found" : String).data, ("text/plain" : String).data⟩
  | some i =>
    let headers := rawEmail.take i
    let body := jsTrim (rawEmail.drop (i + 4))
    ⟨decodeContent body (headerEncoding headers), headerContentType headers⟩

/-- `extractEmailContent`: detect a multipart boundary, split on
`--<boundary>`, select the best-scoring part, and extract it; without a
boundary fall back to the simple extraction. -/
def extractEmailContent (rawEmail : List Char) : Extracted :=
  if rawEmail = [] then
    ⟨("Invalid email content" : String).data, ("text/plain" : String).data⟩
  else
    match findBoundary rawEmail with
    | none => extractSimpleEmailBody rawEmail
    | some b =>
      match selectBest (splitOnSub (Char.ofNat 45) (Char.ofNat 45 :: b) rawEmail) none 0 with
      | some p => extractPartContent p
      | none => ⟨("No readable content found" : String).data, ("text/plain" : String).data⟩

/-- `CONFIG.MAX_BODY_LENGTH`. -/
def MAX_BODY_LENGTH : Nat := 4000

/-- `CONFIG.MAX_SUBJECT_LENGTH`. -/
def MAX_SUBJECT_LENGTH : Nat := 100

/-- `CONFIG.RATE_LIMIT_WINDOW` in milliseconds. -/
def RATE_LIMIT_WINDOW : Int := 60000

/-- `CONFIG.MAX_EMAILS_PER_WINDOW`. -/
def MAX_EMAILS_PER_WINDOW : Nat := 10

/-- One entry of the mojibake repair table: a literal pattern (non-empty)
and its replacement. -/
def repairTable : List ((Char × List Char) × List Char) :=
  [((Char.ofNat 0xE2, [Char.ofNat 0xAF]), [Char.ofNat 32]),
   ((Char.ofNat 0xC3, [Char.ofNat 0xA9]), [Char.ofNat 0xE9]),
   ((Char.ofNat 0xC3, [Char.ofNat 32]), [Char.ofNat 0xE0]),
   ((Char.ofNat 0xC3, [Char.ofNat 0xA8]), [Char.ofNat 0xE8]),
   ((Char.ofNat 0xC3, [Char.ofNat 0xB9]), [Char.ofNat 0xF9]),
   ((Char.ofNat 0xC3, [Char.ofNat 0xA7]), [Char.ofNat 0xE7]),
   ((Char.ofNat 0xC3, [Char.ofNat 0xB4]), [Char.ofNat 0xF4]),
   ((Char.ofNat 0xC3, [Char.ofNat 0xAE]), [Char.ofNat 0xEE]),
   ((Char.ofNat 0xC3, [Char.ofNat 0xA2]), [Char.ofNat 0xE2]),
   ((Char.ofNat 0xC3, [Char.ofNat 0xAB]), [Char.ofNat 0xEB]),
   ((Char.ofNat 0xC3, [Char.ofNat 0xAF]), [Char.ofNat 0xEF]),
   ((Char.ofNat 0xC3, [Char.ofNat 0xBC]), [Char.ofNat 0xFC]),
   ((Char.ofNat 0xC3, [Char.ofNat 0xB6]), [Char.ofNat 0xF6]),
   ((Char.ofNat 0xC3, [Char.ofNat 0xA4]), [Char.ofNat 0xE4]),
   ((Char.ofNat 0xC3, []), [Char.ofNat 0xC0]),
   ((Char.ofNat 0xE2, []), [Char.ofNat 39]),
   ((Char.ofNat 0xE2, []), [Char.ofNat 39]),
   ((Char.ofNat 0xE2, []), [Char.ofNat 34]),
   ((Char.ofNat 0xE2, []), [Char.ofNat 34]),
   ((Char.ofNat 0xE2, []), [Char.ofNat 0x2014]),
   ((Char.ofNat 0xE2, []), [Char.ofNat 0x2013])]

/-- Apply the repair-table replacements in source order. -/
def applyRepairs (s : List Char) : List Char :=
  repairTable.foldl (fun acc e => replaceSub e.1.1 e.1.2 e.2 acc) s

/-- The truncation marker appended by `cleanText`:
`"...\n\n🔽 *Full content available in attached file*"`. -/
def truncMarker : List Char :=
  [Char.ofNat 46, Char.ofNat 46, Char.ofNat 46, Char.ofNat 10, Char.ofNat 10] ++
  [Char.ofNat 0x1F53D, Char.ofNat 32] ++
  ("*Full content available in attached file*" : String).data

/-- The pre-truncation pipeline of `cleanText`: CRLF and CR to LF, collapse
runs of three or more newlines, apply the repair table, trim. -/
def cleanCore (text : List Char) : List Char :=
  jsTrim (applyRepairs (collapseNL
    (replaceSub (Char.ofNat 13) [] [Char.ofNat 10]
      (replaceSub (Char.ofNat 13) [Char.ofNat 10] [Char.ofNat 10] text))))

/-- `cleanText`: empty (falsy) input gives the empty string; otherwise run
the cleaning pipeline and truncate to `maxLength` characters plus the fixed
marker when the cleaned text is longer than `maxLength`. -/
def cleanText (text : List Char) (maxLength : Nat) : List Char :=
  if text = [] then []
  else
    let cleaned := cleanCore text
    if maxLength < cleaned.length then cleaned.take maxLength ++ truncMarker
    else cleaned

/-- The rate-limit store: one ordered entry per identifier, modelling the
insertion-ordered JavaScript `Map`. -/
abbrev Store := List (List Char × List Int)

/-- `Map.get` on the store. -/
def lookupTs (id : List Char) : Store → Option (List Int)
  | [] => none
  | e :: rest => if e.1 = id then some e.2 else lookupTs id rest

/-- The full sweep at the top of `checkRateLimit`: filter every entry to the
window and delete entries that become empty. -/
def cleanStore (windowStart : Int) : Store → Store
  | [] => []
  | e :: rest =>
    let f := e.2.filter (fun ts => windowStart < ts)
    if f = [] then cleanStore windowStart rest
    else (e.1, f) :: cleanStore windowStart rest

/-- `Map.set` on the store: replace in place, or append a new entry. -/
def setStore (id : List Char) (v : List Int) : Store → Store
  | [] => [(id, v)]
  | e :: rest => if e.1 = id then (id, v) :: rest else e :: setStore id v rest

/-- `checkRateLimit`, with `Date.now()` and the module-level store made
explicit: returns the admission verdict and the updated store. -/
def checkRateLimit (store : Store) (id : List Char) (now : Int) : Bool × Store :=
  let windowStart := now - RATE_LIMIT_WINDOW
  let cleaned := cleanStore windowStart store
  let requests := (lookupTs id cleaned).getD []
  let recent := requests.filter (fun ts => windowStart < ts)
  if MAX_EMAILS_PER_WINDOW ≤ recent.length then (false, cleaned)
  else (true, setStore id (recent ++ [now]) cleaned)

/-- Run `checkRateLimit` once per timestamp, threading the store. -/
def admitSeq (id : List Char) : Store → List Int → List Bool × Store
  | store, [] => ([], store)
  | store, t :: ts =>
    let r := checkRateLimit store id t
    let rest := admitSeq id r.2 ts
    (r.1 :: rest.1, rest.2)

/-- Outcome of one `fetch` of the Telegram transport: an HTTP 2xx response,
a non-2xx response with its JSON error body, or a thrown network error. -/
inductive TResp where
  | httpOk : TResp
  | httpErr (code : Nat) (desc : List Char) : TResp
  | netErr : TResp
deriving DecidableEq

/-- Result of `sendTelegramMessage`: returned `true`, returned `false`, or
threw (the three throw sites kept apart). -/
inductive SendOutcome where
  | retTrue : SendOutcome
  | retFalse : SendOutcome
  | threwApi (code : Nat) (desc : List Char) : SendOutcome
  | threwFinal (desc : List Char) : SendOutcome
  | threwNet : SendOutcome
deriving DecidableEq

/-- Does the error description contain `"parse_mode"`? -/
def hasParseMode (d : List Char) : Bool :=
  containsSub ("parse_mode" : String).data d

/-- Result of one loop iteration: terminate with an outcome, or back off and
retry; both carry the log of fetches made (the flag records whether the call
had `parse_mode` enabled) and how many responses were consumed. -/
inductive AttemptOut where
  | done (o : SendOutcome) (log : List Bool) : AttemptOut
  | retry (log : List Bool) (consumed : Nat) : AttemptOut
deriving DecidableEq

/-- Continuation of an iteration after an error response was not resolved by
the parse-mode fallback: the `throw` for 404/403 and the `throw` at the last
attempt are both caught by the iteration's own `catch`, which rethrows only
at the last attempt and otherwise backs off and retries. -/
def errCont (maxRetries attempt : Nat) (code : Nat) (desc : List Char)
    (log : List Bool) (consumed : Nat) : AttemptOut :=
  if code == 404 || code == 403 then
    if attempt == maxRetries then .done (.threwApi code desc) log
    else .retry log consumed
  else if attempt == maxRetries then .done (.threwFinal desc) log
  else .retry log consumed

/-- One iteration of the retry loop of `sendTelegramMessage`, reading from
the response oracle at position `idx`. -/
def attemptOnce (resps : Nat → TResp) (maxRetries attempt idx : Nat) : AttemptOut :=
  match resps idx with
  | .httpOk => .done .retTrue [true]
  | .netErr =>
    if attempt == maxRetries then .done .threwNet [true] else .retry [true] 1
  | .httpErr code desc =>
    if code == 400 && hasParseMode desc then
      match resps (idx + 1) with
      | .httpOk => .done .retTrue [true, false]
      | .netErr =>
        if attempt == maxRetries then .done .threwNet [true, false]
        else .retry [true, false] 2
      | .httpErr _ _ => errCont maxRetries attempt code desc [true, false] 2
    else errCont maxRetries attempt code desc [true] 1

/-- The retry loop: `for (attempt = 1; attempt <= maxRetries; attempt++)`,
returning `false` if the loop ever falls through (it cannot while fuel
matches the remaining attempts). -/
def sendLoop (resps : Nat → TResp) (maxRetries : Nat) : Nat → Nat → Nat → SendOutcome × List Bool
  | 0, _, _ => (.retFalse, [])
  | fuel + 1, attempt, idx =>
    match attemptOnce resps maxRetries attempt idx with
    | .done o log => (o, log)
    | .retry log n =>
      let r := sendLoop resps maxRetries fuel (attempt + 1) (idx + n)
      (r.1, log ++ r.2)

/-- `sendTelegramMessage` with default options: empty or whitespace-only
text returns `false` with no fetch; otherwise up to three attempts are made
against the response oracle. -/
def sendTelegramMessage (text : List Char) (resps : Nat → TResp) : SendOutcome × List Bool :=
  if jsTrim text = [] then (.retFalse, [])
  else sendLoop resps 3 3 1 0

/-- Keys of a store. -/
def storeKeys (s : Store) : List (List Char) := s.map Prod.fst

/-- A lookup that fails keeps failing after the sweep. -/
theorem lookupTs_cleanStore_none (id : List Char) (ws : Int) :
    ∀ s : Store, lookupTs id s = none → lookupTs id (cleanStore ws s) = none := by
  intro s
  induction s with
  | nil => intro _; rfl
  | cons e rest ih =>
    intro h
    unfold lookupTs at h
    by_cases he : e.1 = id
    · simp [he] at h
    · unfold cleanStore
      rw [if_neg he] at h
      by_cases hf : e.2.filter (fun ts => ws < ts) = []
      · rw [if_pos hf]; exact ih h
      · rw [if_neg hf]; unfold lookupTs; rw [if_neg he]; exact ih h

/-- A key absent from the key list has a failing lookup. -/
theorem lookupTs_eq_none_of_not_mem (id : List Char) :
    ∀ s : Store, id ∉ storeKeys s → lookupTs id s = none := by
  intro s
  induction s with
  | nil => intro _; rfl
  | cons e rest ih =>
    intro h
    unfold storeKeys at h
    simp only [List.map_cons, List.mem_cons] at h
    push_neg at h
    unfold lookupTs
    rw [if_neg (fun hh => h.1 hh.symm)]
    exact ih (by unfold storeKeys; exact h.2)

/-- Window filtering lifted to an optional entry, with deletion of entries
that become empty. -/
def optFilter (ws : Int) : Option (List Int) → Option (List Int)
  | none => none
  | some l =>
    if l.filter (fun ts => ws < ts) = [] then none
    else some (l.filter (fun ts => ws < ts))

/-- Effect of the sweep on a single identifier, for a store with distinct
keys: its timestamps are filtered to the window, and the entry disappears
when the filtered list is empty. -/
theorem lookupTs_cleanStore (id : List Char) (ws : Int) :
    ∀ s : Store, (storeKeys s).Nodup →
      lookupTs id (cleanStore ws s) = optFilter ws (lookupTs id s) := by
  intro s
  induction s with
  | nil => intro _; rfl
  | cons e rest ih =>
    intro hnd
    have hnd2 : (storeKeys rest).Nodup ∧ e.1 ∉ storeKeys rest := by
      unfold storeKeys at hnd ⊢
      simp only [List.map_cons, List.nodup_cons] at hnd
      exact ⟨hnd.2, hnd.1⟩
    by_cases he : e.1 = id
    · by_cases hf : e.2.filter (fun ts => ws < ts) = []
      · have h1 : cleanStore ws (e :: rest) = cleanStore ws rest := by
          simp only [cleanStore]
          rw [if_pos hf]
        rw [h1]
        simp only [lookupTs, if_pos he, optFilter, if_pos hf]
        rw [← he]
        exact lookupTs_cleanStore_none e.1 ws rest
          (lookupTs_eq_none_of_not_mem e.1 rest hnd2.2)
      · have h1 : cleanStore ws (e :: rest) =
            (e.1, e.2.filter (fun ts => ws < ts)) :: cleanStore ws rest := by
          simp only [cleanStore]
          rw [if_neg hf]
        rw [h1]
        simp only [lookupTs, if_pos he, optFilter, if_neg hf]
    · by_cases hf : e.2.filter (fun ts => ws < ts) = []
      · have h1 : cleanStore ws (e :: rest) = cleanStore ws rest := by
          simp only [cleanStore]
          rw [if_pos hf]
        rw [h1]
        simp only [lookupTs, if_neg he]
        exact ih hnd2.1
      · have h1 : cleanStore ws (e :: rest) =
            (e.1, e.2.filter (fun ts => ws < ts)) :: cleanStore ws rest := by
          simp only [cleanStore]
          rw [if_neg hf]
        rw [h1]
        simp only [lookupTs, if_neg he]
        exact ih hnd2.1

/-- `Map.set` makes the written entry visible. -/
theorem lookupTs_setStore_self (id : List Char) (v : List Int) :
    ∀ s : Store, lookupTs id (setStore id v s) = some v := by
  intro s
  induction s with
  | nil => unfold setStore lookupTs; rw [if_pos rfl]
  | cons e rest ih =>
    unfold setStore
    by_cases he : e.1 = id
    · rw [if_pos he]; unfold lookupTs; rw [if_pos rfl]
    · rw [if_neg he]; unfold lookupTs; rw [if_neg he]; exact ih

/-- Keys after the sweep come from the original key list. -/
theorem mem_storeKeys_cleanStore (k : List Char) (ws : Int) :
    ∀ s : Store, k ∈ storeKeys (cleanStore ws s) → k ∈ storeKeys s := by
  intro s
  induction s with
  | nil => intro h; exact h
  | cons e rest ih =>
    intro h
    unfold cleanStore at h
    unfold storeKeys at *
    by_cases hf : e.2.filter (fun ts => ws < ts) = []
    · rw [if_pos hf] at h
      exact List.mem_cons_of_mem _ (ih h)
    · rw [if_neg hf] at h
      simp only [List.map_cons, List.mem_cons] at h ⊢
      rcases h with h | h
      · exact Or.inl h
      · exact Or.inr (ih h)

/-- The sweep preserves distinctness of keys. -/
theorem nodup_storeKeys_cleanStore (ws : Int) :
    ∀ s : Store, (storeKeys s).Nodup → (storeKeys (cleanStore ws s)).Nodup := by
  intro s
  induction s with
  | nil => intro h; exact h
  | cons e rest ih =>
    intro hnd
    unfold storeKeys at hnd
    simp only [List.map_cons, List.nodup_cons] at hnd
    unfold cleanStore
    by_cases hf : e.2.filter (fun ts => ws < ts) = []
    · rw [if_pos hf]; exact ih hnd.2
    · rw [if_neg hf]
      unfold storeKeys
      simp only [List.map_cons, List.nodup_cons]
      exact ⟨fun hm => hnd.1 (mem_storeKeys_cleanStore e.1 ws rest hm), ih hnd.2⟩

/-- Keys after a `Map.set` come from the original key list or are the
written key. -/
theorem mem_storeKeys_setStore (k id : List Char) (v : List Int) :
    ∀ s : Store, k ∈ storeKeys (setStore id v s) → k ∈ storeKeys s ∨ k = id := by
  intro s
  induction s with
  | nil =>
    intro h
    unfold setStore storeKeys at h
    simp only [List.map_cons, List.mem_cons] at h
    rcases h with h | h
    · exact Or.inr h
    · simp at h
  | cons e rest ih =>
    intro h
    unfold setStore at h
    by_cases he : e.1 = id
    · rw [if_pos he] at h
      unfold storeKeys at *
      simp only [List.map_cons, List.mem_cons] at h ⊢
      rcases h with h | h
      · exact Or.inr (by rw [h])
      · exact Or.inl (Or.inr h)
    · rw [if_neg he] at h
      unfold storeKeys at *
      simp only [List.map_cons, List.mem_cons] at h ⊢
      rcases h with h | h
      · exact Or.inl (Or.inl h)
      · rcases ih h with h2 | h2
        · exact Or.inl (Or.inr h2)
        · exact Or.inr h2

/-- `Map.set` preserves distinctness of keys. -/
theorem nodup_storeKeys_setStore (id : List Char) (v : List Int) :
    ∀ s : Store, (storeKeys s).Nodup → (storeKeys (setStore id v s)).Nodup := by
  intro s
  induction s with
  | nil =>
    intro _
    unfold setStore storeKeys
    simp
  | cons e rest ih =>
    intro hnd
    unfold storeKeys at hnd
    simp only [List.map_cons, List.nodup_cons] at hnd
    unfold setStore
    by_cases he : e.1 = id
    · rw [if_pos he]
      unfold storeKeys
      simp only [List.map_cons, List.nodup_cons]
      rw [← he]
      exact hnd
    · rw [if_neg he]
      unfold storeKeys
      simp only [List.map_cons, List.nodup_cons]
      refine ⟨fun hm => ?_, ih hnd.2⟩
      rcases mem_storeKeys_setStore e.1 id v rest hm with h2 | h2
      · exact hnd.1 h2
      · exact he h2

/-- Window filtering is idempotent. -/
theorem filter_win_idem (p : Int → Bool) :
    ∀ l : List Int, (l.filter p).filter p = l.filter p := by
  intro l
  induction l with
  | nil => rfl
  | cons a l ih =>
    by_cases hp : p a
    · simp [List.filter_cons, hp, ih]
    · simp [List.filter_cons, hp, ih]

/-- Invariant of a run of admissions for one identifier: starting from a
store whose entry for the identifier holds exactly `pre`, a sequence of
calls at times inside the window of `tE` all succeed while the capacity is
not exceeded, and afterwards the entry holds `pre` followed by the call
times in order. -/
theorem admitSeq_window (id : List Char) (tE : Int) :
    ∀ (ts pre : List Int) (store : Store),
      (storeKeys store).Nodup →
      lookupTs id store = (if pre = [] then none else some pre) →
      pre.length + ts.length ≤ MAX_EMAILS_PER_WINDOW →
      (∀ t ∈ pre ++ ts, tE - RATE_LIMIT_WINDOW < t ∧ t ≤ tE) →
      (admitSeq id store ts).1 = List.replicate ts.length true ∧
      lookupTs id (admitSeq id store ts).2 =
        (if pre ++ ts = [] then none else some (pre ++ ts)) ∧
      (storeKeys (admitSeq id store ts).2).Nodup := by
  intro ts
  induction ts with
  | nil =>
    intro pre store hnd hpre _ _
    simp only [admitSeq, List.length_nil, List.replicate_zero, List.append_nil]
    exact ⟨trivial, hpre, hnd⟩
  | cons t ts ih =>
    intro pre store hnd hpre hlen hb
    have htE : t ≤ tE := (hb t (by simp)).2
    have hfilt : pre.filter (fun x => t - RATE_LIMIT_WINDOW < x) = pre := by
      rw [List.filter_eq_self]
      intro a ha
      have := hb a (List.mem_append_left _ ha)
      simp only [decide_eq_true_eq]
      omega
    have hlook : lookupTs id (cleanStore (t - RATE_LIMIT_WINDOW) store) =
        (if pre = [] then none else some pre) := by
      rw [lookupTs_cleanStore id _ store hnd, hpre]
      by_cases hp : pre = []
      · rw [if_pos hp]
        rfl
      · rw [if_neg hp]
        simp only [optFilter, hfilt]
        rw [if_neg hp]
    have hreq : ((lookupTs id (cleanStore (t - RATE_LIMIT_WINDOW) store)).getD []) = pre := by
      rw [hlook]
      by_cases hp : pre = []
      · rw [if_pos hp, hp]; rfl
      · rw [if_neg hp]; rfl
    have hcap : ¬ MAX_EMAILS_PER_WINDOW ≤ pre.length := by
      simp only [List.length_cons] at hlen
      omega
    have hck : checkRateLimit store id t =
        (true, setStore id (pre ++ [t]) (cleanStore (t - RATE_LIMIT_WINDOW) store)) := by
      simp only [checkRateLimit]
      rw [hreq, hfilt, if_neg hcap]
    have hnd2 : (storeKeys (setStore id (pre ++ [t])
        (cleanStore (t - RATE_LIMIT_WINDOW) store))).Nodup :=
      nodup_storeKeys_setStore id _ _ (nodup_storeKeys_cleanStore _ store hnd)
    have hpre2 : lookupTs id (setStore id (pre ++ [t])
        (cleanStore (t - RATE_LIMIT_WINDOW) store)) =
        (if pre ++ [t] = [] then none else some (pre ++ [t])) := by
      rw [if_neg (by simp)]
      exact lookupTs_setStore_self id _ _
    have hlen2 : (pre ++ [t]).length + ts.length ≤ MAX_EMAILS_PER_WINDOW := by
      simp only [List.length_append, List.length_singleton, List.length_cons, List.length_nil] at hlen ⊢
      omega
    have hb2 : ∀ x ∈ (pre ++ [t]) ++ ts, tE - RATE_LIMIT_WINDOW < x ∧ x ≤ tE := by
      intro x hx
      apply hb
      simp only [List.append_assoc, List.singleton_append] at hx
      exact hx
    obtain ⟨ih1, ih2, ih3⟩ := ih (pre ++ [t]) _ hnd2 hpre2 hlen2 hb2
    refine ⟨?_, ?_, ?_⟩
    · simp only [admitSeq, hck, ih1, List.length_cons, List.replicate_succ]
    · simp only [admitSeq, hck]
      rw [ih2]
      rw [if_neg (by simp), if_neg (by simp)]
      simp
    · simp only [admitSeq, hck]
      exact ih3

/-- C4 helper: the window filter empties when every element is at or before
the window start. -/
theorem filter_win_nil (ws : Int) (l : List Int) (h : ∀ t ∈ l, t ≤ ws) :
    l.filter (fun ts => ws < ts) = [] := by
  rw [List.filter_eq_nil_iff]
  intro a ha
  simp only [decide_eq_true_eq]
  have := h a ha
  omega

/-- C4: with `MAX_EMAILS_PER_WINDOW = 10` and `RATE_LIMIT_WINDOW = 60000` ms,
starting from a state with no admissions for an identifier, ten admit calls
for it within one window all return true, an eleventh call within the same
window returns false, and once every prior timestamp is older than
`now - window` a further admit call returns true again. -/
theorem rateLimit_window_cycle (store0 : Store) (id : List Char) (ts : List Int) (tE tP : Int)
    (hnd : (storeKeys store0).Nodup) (h0 : lookupTs id store0 = none)
    (hlen : ts.length = MAX_EMAILS_PER_WINDOW)
    (hin : ∀ t ∈ ts, tE - RATE_LIMIT_WINDOW < t ∧ t ≤ tE)
    (hgone : ∀ t ∈ ts, t ≤ tP - RATE_LIMIT_WINDOW) :
    (admitSeq id store0 ts).1 = List.replicate MAX_EMAILS_PER_WINDOW true ∧
    (checkRateLimit (admitSeq id store0 ts).2 id tE).1 = false ∧
    (checkRateLimit (checkRateLimit (admitSeq id store0 ts).2 id tE).2 id tP).1 = true := by
  have hts_ne : ts ≠ [] := by
    intro h
    rw [h] at hlen
    simp [MAX_EMAILS_PER_WINDOW] at hlen
  obtain ⟨h1, h2, h3⟩ := admitSeq_window id tE ts [] store0 hnd
    (by rw [if_pos rfl]; exact h0)
    (by rw [hlen]; simp)
    (by simpa using hin)
  simp only [List.nil_append] at h2
  rw [if_neg hts_ne] at h2
  have hfiltE : ts.filter (fun x => tE - RATE_LIMIT_WINDOW < x) = ts := by
    rw [List.filter_eq_self]
    intro a ha
    simp only [decide_eq_true_eq]
    exact (hin a ha).1
  have hlookE : lookupTs id (cleanStore (tE - RATE_LIMIT_WINDOW) (admitSeq id store0 ts).2) =
      some ts := by
    rw [lookupTs_cleanStore id _ _ h3, h2]
    simp only [optFilter, hfiltE]
    rw [if_neg hts_ne]
  have hckE : checkRateLimit (admitSeq id store0 ts).2 id tE =
      (false, cleanStore (tE - RATE_LIMIT_WINDOW) (admitSeq id store0 ts).2) := by
    simp only [checkRateLimit]
    rw [hlookE]
    simp only [Option.getD_some]
    rw [hfiltE, if_pos (by rw [hlen])]
  have hnd2 : (storeKeys (cleanStore (tE - RATE_LIMIT_WINDOW) (admitSeq id store0 ts).2)).Nodup :=
    nodup_storeKeys_cleanStore _ _ h3
  have hlookP : lookupTs id (cleanStore (tP - RATE_LIMIT_WINDOW)
      (cleanStore (tE - RATE_LIMIT_WINDOW) (admitSeq id store0 ts).2)) = none := by
    rw [lookupTs_cleanStore id _ _ hnd2, hlookE]
    simp only [optFilter]
    rw [if_pos (filter_win_nil _ ts hgone)]
  have hckP : (checkRateLimit (cleanStore (tE - RATE_LIMIT_WINDOW)
      (admitSeq id store0 ts).2) id tP).1 = true := by
    simp only [checkRateLimit]
    rw [hlookP]
    simp only [Option.getD_none, List.filter_nil, List.length_nil]
    rw [if_neg (by simp [MAX_EMAILS_PER_WINDOW])]
  refine ⟨by rw [h1, hlen], ?_, ?_⟩
  · rw [hckE]
  · rw [hckE]
    exact hckP

/-- Witness for C4 at a concrete store, identifier and times. -/
theorem rateLimit_window_cycle_witness :
    (admitSeq [Char.ofNat 97] [] (List.replicate 10 (0 : Int))).1 = List.replicate 10 true ∧
    (checkRateLimit (admitSeq [Char.ofNat 97] [] (List.replicate 10 (0 : Int))).2
      [Char.ofNat 97] 0).1 = false ∧
    (checkRateLimit (checkRateLimit (admitSeq [Char.ofNat 97] [] (List.replicate 10 (0 : Int))).2
      [Char.ofNat 97] 0).2 [Char.ofNat 97] 60000).1 = true := by
  have h := rateLimit_window_cycle [] [Char.ofNat 97] (List.replicate 10 (0 : Int)) 0 60000
    (by simp [storeKeys]) rfl (by decide) (by decide) (by decide)
  simpa [MAX_EMAILS_PER_WINDOW] using h

/-- C9: a rejected check leaves the store equal to the purged store — no
timestamp is appended for any identifier, every surviving timestamp was
already present, and the in-window timestamp sequence of the checked
identifier is unchanged. -/
theorem rateLimit_reject_frame (store : Store) (id : List Char) (now : Int)
    (hnd : (storeKeys store).Nodup)
    (h : (checkRateLimit store id now).1 = false) :
    (checkRateLimit store id now).2 = cleanStore (now - RATE_LIMIT_WINDOW) store ∧
    (∀ id2 t, t ∈ ((lookupTs id2 (checkRateLimit store id now).2).getD ([] : List Int)) →
        t ∈ ((lookupTs id2 store).getD ([] : List Int))) ∧
    ((lookupTs id (checkRateLimit store id now).2).getD ([] : List Int)).filter
        (fun ts => now - RATE_LIMIT_WINDOW < ts) =
      ((lookupTs id store).getD ([] : List Int)).filter
        (fun ts => now - RATE_LIMIT_WINDOW < ts) := by
  by_cases hc : MAX_EMAILS_PER_WINDOW ≤
      (((lookupTs id (cleanStore (now - RATE_LIMIT_WINDOW) store)).getD []).filter
        (fun ts => now - RATE_LIMIT_WINDOW < ts)).length
  case neg =>
    exfalso
    have : (checkRateLimit store id now).1 = true := by
      simp only [checkRateLimit]
      rw [if_neg hc]
    rw [this] at h
    simp at h
  case pos =>
  have h2 : (checkRateLimit store id now).2 = cleanStore (now - RATE_LIMIT_WINDOW) store := by
    simp only [checkRateLimit]
    rw [if_pos hc]
  refine ⟨h2, ?_, ?_⟩
  · intro id2 t ht
    rw [h2, lookupTs_cleanStore id2 _ store hnd] at ht
    cases hl : lookupTs id2 store with
    | none =>
      rw [hl] at ht
      simp [optFilter] at ht
    | some l =>
      rw [hl] at ht
      simp only [optFilter] at ht
      by_cases hf : l.filter (fun ts => now - RATE_LIMIT_WINDOW < ts) = []
      · rw [if_pos hf] at ht
        simp at ht
      · rw [if_neg hf] at ht
        simp only [Option.getD_some] at ht
        simp only [Option.getD_some]
        exact (List.mem_filter.mp ht).1
  · rw [h2, lookupTs_cleanStore id _ store hnd]
    cases hl : lookupTs id store with
    | none => simp [optFilter]
    | some l =>
      simp only [optFilter]
      by_cases hf : l.filter (fun ts => now - RATE_LIMIT_WINDOW < ts) = []
      · rw [if_pos hf]
        simp only [Option.getD_none, Option.getD_some, List.filter_nil]
        rw [hf]
      · rw [if_neg hf]
        simp only [Option.getD_some]
        exact filter_win_idem _ l

/-- Witness for C9 at a concrete saturated store. -/
theorem rateLimit_reject_frame_witness :
    ((checkRateLimit [([Char.ofNat 97], List.replicate 10 (0 : Int))] [Char.ofNat 97] 0).2 =
      cleanStore (0 - RATE_LIMIT_WINDOW) [([Char.ofNat 97], List.replicate 10 (0 : Int))]) ∧
    ((checkRateLimit [([Char.ofNat 97], List.replicate 10 (0 : Int))] [Char.ofNat 97] 0).1 =
      false) := by
  refine ⟨?_, by decide⟩
  exact (rateLimit_reject_frame [([Char.ofNat 97], List.replicate 10 (0 : Int))]
    [Char.ofNat 97] 0 (by simp [storeKeys]) (by decide)).1

/-- A part scores at most 3. -/
theorem getPartScore_le (p : List Char) : getPartScore p ≤ 3 := by
  unfold getPartScore
  split_ifs <;> omega

/-- If every part scores 0, the loop keeps its initial best. -/
theorem selectBest_all_zero :
    ∀ (l : List (List Char)) (best : Option (List Char)) (bs : Nat),
      (∀ p ∈ l, getPartScore p = 0) → selectBest l best bs = best := by
  intro l
  induction l with
  | nil => intro best bs _; rfl
  | cons q l ih =>
    intro best bs h
    unfold selectBest
    rw [if_neg (by rw [h q (by simp)]; omega)]
    exact ih best bs (fun p hp => h p (by simp [hp]))

/-- Maximum part score over a list of parts. -/
def maxPartScore : List (List Char) → Nat
  | [] => 0
  | p :: ps => Nat.max (getPartScore p) (maxPartScore ps)

/-- Every member scores at most the maximum. -/
theorem getPartScore_le_max : ∀ l : List (List Char), ∀ p ∈ l, getPartScore p ≤ maxPartScore l := by
  intro l
  induction l with
  | nil => intro p hp; simp at hp
  | cons q l ih =>
    intro p hp
    rcases List.mem_cons.mp hp with rfl | hp
    · simp only [maxPartScore]
      exact Nat.le_max_left _ _
    · simp only [maxPartScore]
      exact le_trans (ih p hp) (Nat.le_max_right _ _)

/-- The maximum score is at most 3. -/
theorem maxPartScore_le : ∀ l : List (List Char), maxPartScore l ≤ 3 := by
  intro l
  induction l with
  | nil => simp [maxPartScore]
  | cons q l ih =>
    simp only [maxPartScore]
    exact Nat.max_le.mpr ⟨getPartScore_le q, ih⟩

/-- A best part whose score dominates the remaining parts stays selected. -/
theorem selectBest_stable_ge (q : List Char) :
    ∀ (l : List (List Char)) (m : Nat), (∀ p ∈ l, getPartScore p ≤ m) →
      selectBest l (some q) m = some q := by
  intro l
  induction l with
  | nil => intro m _; rfl
  | cons r l ih =>
    intro m h
    unfold selectBest
    rw [if_neg (by have := h r (by simp); omega)]
    exact ih m (fun p hp => h p (by simp [hp]))

/-- While the best score is below the overall maximum, the loop selects the
first part achieving the maximum. -/
theorem selectBest_find_max :
    ∀ (l : List (List Char)) (best : Option (List Char)) (bs : Nat),
      bs < maxPartScore l →
      selectBest l best bs = l.find? (fun q => getPartScore q == maxPartScore l) := by
  intro l
  induction l with
  | nil =>
    intro best bs h
    simp [maxPartScore] at h
  | cons q l ih =>
    intro best bs h
    by_cases hq : getPartScore q = maxPartScore (q :: l)
    · rw [List.find?_cons_of_pos _ (by simp [hq])]
      unfold selectBest
      rw [if_pos (by omega), hq]
      exact selectBest_stable_ge q l (maxPartScore (q :: l))
        (fun p hp => le_trans (getPartScore_le_max l p hp)
          (by simp only [maxPartScore]; exact Nat.le_max_right _ _))
    · have hm : maxPartScore (q :: l) = maxPartScore l := by
        rcases Nat.le_total (getPartScore q) (maxPartScore l) with hle | hle
        · simp only [maxPartScore]
          exact Nat.max_eq_right hle
        · exfalso
          apply hq
          simp only [maxPartScore]
          exact (Nat.max_eq_left hle).symm
      have h1 : getPartScore q ≤ maxPartScore l := by
        have h2 := getPartScore_le_max (q :: l) q (by simp)
        rw [hm] at h2
        exact h2
      rw [hm] at h hq ⊢
      have hqlt : getPartScore q < maxPartScore l := by omega
      rw [List.find?_cons_of_neg _ (by simp [hq])]
      unfold selectBest
      by_cases hlt : bs < getPartScore q
      · rw [if_pos hlt]
        exact ih (some q) _ hqlt
      · rw [if_neg hlt]
        exact ih best bs h

/-- A successful search for a score-3 part forces the maximum to be 3. -/
theorem maxPartScore_of_find3 (l : List (List Char)) (p : List Char)
    (hp : l.find? (fun q => getPartScore q == 3) = some p) : maxPartScore l = 3 := by
  have hmem := List.mem_of_find?_eq_some hp
  have hsc : getPartScore p = 3 := by
    have := List.find?_some hp
    simpa using this
  have h1 := getPartScore_le_max l p hmem
  have h2 := maxPartScore_le l
  omega

/-- C1: whenever the boundary scan detects a marker, extraction runs the
best-part selection over the split parts: if some part contains the exact
`Content-Type: text/plain` declaration (score 3, the maximal possible
score), the first such part is extracted regardless of its position; and in
general, whenever any part scores above zero, the extracted part is the
earliest part achieving the maximal score, so ties keep the earliest part
in split order. -/
theorem extract_selects_first_text_plain (raw b p : List Char)
    (hb : findBoundary raw = some b) :
    ((splitOnSub (Char.ofNat 45) (Char.ofNat 45 :: b) raw).find?
        (fun q => getPartScore q == 3) = some p →
      extractEmailContent raw = extractPartContent p) ∧
    (0 < maxPartScore (splitOnSub (Char.ofNat 45) (Char.ofNat 45 :: b) raw) →
      (splitOnSub (Char.ofNat 45) (Char.ofNat 45 :: b) raw).find?
        (fun q => getPartScore q ==
          maxPartScore (splitOnSub (Char.ofNat 45) (Char.ofNat 45 :: b) raw)) = some p →
      extractEmailContent raw = extractPartContent p) := by
  have hmain : ∀ hm : 0 < maxPartScore (splitOnSub (Char.ofNat 45) (Char.ofNat 45 :: b) raw),
      (splitOnSub (Char.ofNat 45) (Char.ofNat 45 :: b) raw).find?
        (fun q => getPartScore q ==
          maxPartScore (splitOnSub (Char.ofNat 45) (Char.ofNat 45 :: b) raw)) = some p →
      extractEmailContent raw = extractPartContent p := by
    intro hm hp
    cases raw with
    | nil => exact absurd hb (by simp [findBoundary])
    | cons c cs =>
      unfold extractEmailContent
      rw [if_neg (by simp)]
      simp only [hb]
      rw [selectBest_find_max _ none 0 hm, hp]
  constructor
  · intro hp
    have hm3 := maxPartScore_of_find3 _ p hp
    refine hmain (by omega) ?_
    rw [hm3]
    exact hp
  · exact hmain

/-- Witness for C1: a multipart email whose text/plain part comes after a
text/html part is still extracted from the text/plain part. -/
theorem extract_selects_first_text_plain_witness :
    extractEmailContent ("boundary=b\r\n--b\r\nContent-Type: text/html\r\n\r\nH\r\n--b\r\nContent-Type: text/plain\r\n\r\nP\r\n--b--" : String).data =
      extractPartContent ("\r\nContent-Type: text/plain\r\n\r\nP\r\n" : String).data ∧
    extractPartContent ("\r\nContent-Type: text/plain\r\n\r\nP\r\n" : String).data =
      ⟨("P" : String).data, ("text/plain" : String).data⟩ := by
  refine ⟨?_, by decide⟩
  exact (extract_selects_first_text_plain _ [Char.ofNat 98] _ (by decide)).1 (by decide)

/-- C10: part scoring matches the exact, case-sensitive substring
`Content-Type: text/plain` (one space after the colon); when every split
part misses all three exact patterns — e.g. a lower-case
`content-type: text/plain` header — nothing is selected and extraction
reports the `No readable content found` sentinel, even though header
extraction inside a selected part is case-insensitive. -/
theorem score_case_sensitive_no_readable (raw b : List Char)
    (hb : findBoundary raw = some b)
    (hall : ∀ p ∈ splitOnSub (Char.ofNat 45) (Char.ofNat 45 :: b) raw, getPartScore p = 0) :
    extractEmailContent raw =
      ⟨("No readable content found" : String).data, ("text/plain" : String).data⟩ ∧
    getPartScore ("\r\ncontent-type: text/plain\r\n\r\nHello" : String).data = 0 ∧
    getPartScore ("\r\nContent-Type:  text/plain\r\n\r\nHello" : String).data = 0 ∧
    getPartScore ("\r\nContent-Type: text/plain\r\n\r\nHello" : String).data = 3 ∧
    extractPartContent ("\r\ncontent-type: text/plain\r\n\r\nHello" : String).data =
      ⟨("Hello" : String).data, ("text/plain" : String).data⟩ := by
  refine ⟨?_, by decide, by decide, by decide, by decide⟩
  cases raw with
  | nil => exact absurd hb (by simp [findBoundary])
  | cons c cs =>
    unfold extractEmailContent
    rw [if_neg (by simp)]
    simp only [hb]
    rw [selectBest_all_zero _ none 0 hall]

/-- Witness for C10: a multipart email whose only text part declares its
content type in lower case yields the sentinel. -/
theorem score_case_sensitive_no_readable_witness :
    extractEmailContent ("Content-Type: multipart/mixed; boundary=b\r\n\r\n--b\r\ncontent-type: text/plain\r\n\r\nHello\r\n--b--" : String).data =
      ⟨("No readable content found" : String).data, ("text/plain" : String).data⟩ := by
  exact (score_case_sensitive_no_readable _ [Char.ofNat 98] (by decide) (by decide)).1

/-- C8 (amended): a non-multipart payload without a CRLF blank-line
separator yields the `No body content found` sentinel, while a selected
part without the separator yields the distinct `Invalid part format`
sentinel — both with content type `text/plain`. -/
theorem no_blank_line_sentinels (raw part : List Char)
    (hne : raw ≠ []) (hnb : findBoundary raw = none)
    (hraw : findSubPos crlf2 raw = none)
    (hpart : findSubPos crlf2 part = none) :
    extractEmailContent raw =
      ⟨("No body content found" : String).data, ("text/plain" : String).data⟩ ∧
    extractPartContent part =
      ⟨("Invalid part format" : String).data, ("text/plain" : String).data⟩ := by
  constructor
  · unfold extractEmailContent
    rw [if_neg hne]
    simp only [hnb]
    unfold extractSimpleEmailBody
    simp only [hraw]
  · unfold extractPartContent
    simp only [hpart]

/-- Witness for C8's amended statement on concrete inputs. -/
theorem no_blank_line_sentinels_witness :
    extractEmailContent ("Subject: hi" : String).data =
      ⟨("No body content found" : String).data, ("text/plain" : String).data⟩ ∧
    extractPartContent ("\r\nContent-Type: text/plain" : String).data =
      ⟨("Invalid part format" : String).data, ("text/plain" : String).data⟩ :=
  no_blank_line_sentinels _ _ (by decide) (by decide) (by decide) (by decide)

/-- Counterexample to C8 as stated: a multipart email whose selected part
has no blank-line separator reports `Invalid part format`, not the
`No body content found` sentinel the claim requires. -/
theorem no_blank_line_part_cex :
    extractEmailContent ("boundary=b\r\n--b\r\nContent-Type: text/plain" : String).data =
      ⟨("Invalid part format" : String).data, ("text/plain" : String).data⟩ ∧
    (extractEmailContent ("boundary=b\r\n--b\r\nContent-Type: text/plain" : String).data).body ≠
      ("No body content found" : String).data := by
  refine ⟨by decide, by decide⟩

/-- C2 evidence (code bug): with every transport response a 404 error, the
send makes three fetch calls — after each 404 the deliberately thrown error
is caught by the same iteration's catch block, which backs off and retries —
and the API error only propagates after the final attempt, not immediately
after the first response as the specification requires. -/
theorem send_404_retries_three_times :
    sendTelegramMessage ("hi" : String).data
        (fun _ => .httpErr 404 ("Not Found" : String).data) =
      (.threwApi 404 ("Not Found" : String).data, [true, true, true]) := by
  decide

/-- C3: an attempt whose response is a 400 error with a description
containing `parse_mode` makes exactly one immediate same-attempt fallback
fetch with the markup mode disabled, and when that fallback returns HTTP
success the whole send returns true having made exactly those two calls. -/
theorem send_parse_mode_fallback (resps : Nat → TResp) (d : List Char)
    (maxR fuel attempt idx : Nat)
    (h1 : resps idx = .httpErr 400 d) (h2 : hasParseMode d = true)
    (h3 : resps (idx + 1) = .httpOk) :
    sendLoop resps maxR (fuel + 1) attempt idx = (.retTrue, [true, false]) := by
  have ha : attemptOnce resps maxR attempt idx = .done .retTrue [true, false] := by
    unfold attemptOnce
    rw [h1, h3]
    simp [h2]
  unfold sendLoop
  rw [ha]

/-- Witness for C3 at a concrete oracle: the first response is the 400
parse-mode rejection, the fallback succeeds, and the whole
`sendTelegramMessage` call returns true after `[true, false]` calls. -/
theorem send_parse_mode_fallback_witness :
    sendLoop (fun n => if n == 0 then
        .httpErr 400 ("Bad Request: unsupported parse_mode" : String).data else .httpOk)
      3 3 1 0 = (.retTrue, [true, false]) ∧
    sendTelegramMessage ("hi" : String).data (fun n => if n == 0 then
        .httpErr 400 ("Bad Request: unsupported parse_mode" : String).data else .httpOk) =
      (.retTrue, [true, false]) := by
  refine ⟨?_, by decide⟩
  exact send_parse_mode_fallback _
    (("Bad Request: unsupported parse_mode" : String).data) 3 2 1 0
    (by decide) (by decide) (by decide)

/-- C5 (amended): truncation applies to the cleaned text — when the cleaned
text is longer than `maxLength` the output is exactly its first `maxLength`
characters followed by the fixed marker, of total length
`maxLength + truncMarker.length`; when the cleaned text fits, the output is
the cleaned text itself (which also applies the repair table and trimming,
beyond line-ending normalization and blank-line collapsing). -/
theorem cleanText_truncation (text : List Char) (maxLength : Nat) :
    (maxLength < (cleanCore text).length →
      cleanText text maxLength = (cleanCore text).take maxLength ++ truncMarker ∧
      (cleanText text maxLength).length = maxLength + truncMarker.length) ∧
    ((cleanCore text).length ≤ maxLength → cleanText text maxLength = cleanCore text) := by
  by_cases ht : text = []
  · subst ht
    have hc : cleanCore ([] : List Char) = [] := by decide
    constructor
    · intro h
      rw [hc] at h
      simp at h
    · intro _
      rw [show cleanText ([] : List Char) maxLength = [] from rfl, hc]
  · constructor
    · intro h
      unfold cleanText
      rw [if_neg ht, if_pos h]
      refine ⟨rfl, ?_⟩
      rw [List.length_append, List.length_take]
      omega
    · intro h
      unfold cleanText
      rw [if_neg ht, if_neg (by omega)]

/-- Witness for C5's amended statement: a six-character input truncated to
three characters plus the marker. -/
theorem cleanText_truncation_witness :
    3 < (cleanCore ("abcdef" : String).data).length ∧
    cleanText ("abcdef" : String).data 3 =
      (cleanCore ("abcdef" : String).data).take 3 ++ truncMarker := by
  refine ⟨by decide, ?_⟩
  exact ((cleanText_truncation ("abcdef" : String).data 3).1 (by decide)).1

/-- Counterexample to C5 as stated: the input `"a   "` has length 4, which
exceeds `maxLength = 2`, yet the output is the cleaned-and-trimmed `"a"` —
not two characters followed by the marker — because truncation is measured
on the cleaned text, whose trailing whitespace was trimmed away. -/
theorem cleanText_input_length_cex :
    2 < (("a   " : String).data).length ∧
    cleanText ("a   " : String).data 2 = [Char.ofNat 97] ∧
    (cleanText ("a   " : String).data 2).length ≠ 2 + truncMarker.length := by
  refine ⟨by decide, by decide, by decide⟩

/-- C7: the content decoder is total by construction; an unknown encoding
and an absent encoding both return the content unchanged, and a base64
decode failure (an `atob` rejection) also returns the original content. -/
theorem decodeContent_safe (content c2 e : List Char)
    (hunk : toLowerL e ≠ ("base64" : String).data ∧
      toLowerL e ≠ ("quoted-printable" : String).data)
    (hfail : atobBytes (c2.filter (fun c => !jsWhitespace c)) = none) :
    decodeContent content (some e) = content ∧
    decodeContent content none = content ∧
    decodeContent c2 (some (("base64" : String).data)) = c2 := by
  refine ⟨?_, ?_, ?_⟩
  · unfold decodeContent
    by_cases hc : content = []
    · rw [if_pos hc, hc]
    · rw [if_neg hc]
      simp only [if_neg hunk.1, if_neg hunk.2]
  · unfold decodeContent
    by_cases hc : content = []
    · rw [if_pos hc, hc]
    · rw [if_neg hc]
  · unfold decodeContent
    by_cases hc : c2 = []
    · rw [if_pos hc, hc]
    · rw [if_neg hc]
      simp only [if_pos (show toLowerL (("base64" : String).data) =
        ("base64" : String).data from by decide)]
      unfold decodeBase64Content
      simp only [hfail]

/-- Witness for C7: an unrecognised encoding name and a base64 body that
`atob` rejects both come back unchanged. -/
theorem decodeContent_safe_witness :
    decodeContent ("abc" : String).data (some (("x-unknown" : String).data)) =
      ("abc" : String).data ∧
    decodeContent ("abc" : String).data none = ("abc" : String).data ∧
    decodeContent ("!!!" : String).data (some (("base64" : String).data)) =
      ("!!!" : String).data :=
  decodeContent_safe _ _ _ (by refine ⟨by decide, by decide⟩) (by decide)

/-- Every base64 alphabet character decodes back to its sextet value. -/
theorem b64CharVal_alpha : ∀ n < 64, b64CharVal (b64Alpha n) = some n := by decide

/-- No alphabet character is the padding sign. -/
theorem b64Alpha_ne_pad : ∀ n < 64, b64Alpha n ≠ Char.ofNat 61 := by decide

/-- No alphabet character (bounded case) is whitespace. -/
theorem b64Alpha_not_ws_lt : ∀ n < 64, jsWhitespace (b64Alpha n) = false := by decide

/-- No output of `b64Alpha` is whitespace, bounded or not. -/
theorem b64Alpha_not_ws (n : Nat) : jsWhitespace (b64Alpha n) = false := by
  by_cases h : n < 64
  · exact b64Alpha_not_ws_lt n h
  · unfold b64Alpha
    rw [List.getD_eq_default]
    · decide
    · rw [show (("ABCDEFGHIJKLMNOPQRSTUVWXYZabcdefghijklmnopqrstuvwxyz0123456789+/" : String).data).length = 64 from by decide]
      omega

/-- The sextet stream of a byte stream stays below 64. -/
theorem byteSextets_lt : ∀ bs : List Nat, (∀ b ∈ bs, b < 256) →
    ∀ v ∈ byteSextets bs, v < 64
  | [], _, v, hv => by simp [byteSextets] at hv
  | [b1], h, v, hv => by
    have h1 := h b1 (by simp)
    simp only [byteSextets, List.mem_cons, List.not_mem_nil, or_false] at hv
    rcases hv with rfl | rfl <;> omega
  | [b1, b2], h, v, hv => by
    have h1 := h b1 (by simp)
    have h2 := h b2 (by simp)
    simp only [byteSextets, List.mem_cons, List.not_mem_nil, or_false] at hv
    rcases hv with rfl | rfl | rfl <;> omega
  | b1 :: b2 :: b3 :: rest, h, v, hv => by
    have h1 := h b1 (by simp)
    have h2 := h b2 (by simp)
    have h3 := h b3 (by simp)
    simp only [byteSextets, List.mem_cons] at hv
    rcases hv with rfl | rfl | rfl | rfl | hv
    · omega
    · omega
    · omega
    · omega
    · exact byteSextets_lt rest (fun b hb => h b (by simp [hb])) v hv

/-- Mapping sextets through the alphabet and back is the identity. -/
theorem mapCharVals_alpha : ∀ vs : List Nat, (∀ v ∈ vs, v < 64) →
    mapCharVals (vs.map b64Alpha) = some vs := by
  intro vs
  induction vs with
  | nil => intro _; rfl
  | cons v vs ih =>
    intro h
    simp only [List.map_cons, mapCharVals]
    rw [b64CharVal_alpha v (h v (by simp)), ih (fun w hw => h w (by simp [hw]))]

/-- Reassembling the sextet stream recovers the byte stream. -/
theorem sextetsToBytes_byteSextets : ∀ bs : List Nat, (∀ b ∈ bs, b < 256) →
    sextetsToBytes (byteSextets bs) = bs
  | [], _ => rfl
  | [b1], h => by
    have h1 := h b1 (by simp)
    simp only [byteSextets, sextetsToBytes, List.cons.injEq, and_true]
    omega
  | [b1, b2], h => by
    have h1 := h b1 (by simp)
    have h2 := h b2 (by simp)
    simp only [byteSextets, sextetsToBytes, List.cons.injEq, and_true]
    omega
  | b1 :: b2 :: b3 :: rest, h => by
    have h1 := h b1 (by simp)
    have h2 := h b2 (by simp)
    have h3 := h b3 (by simp)
    simp only [byteSextets, sextetsToBytes, List.cons.injEq]
    refine ⟨by omega, by omega, by omega, ?_⟩
    exact sextetsToBytes_byteSextets rest (fun b hb => h b (by simp [hb]))

/-- The encoder output is the alphabet image of the sextet stream followed
by zero, one or two padding signs. -/
theorem b64encode_pad_shape : ∀ bs : List Nat,
    b64encode bs = (byteSextets bs).map b64Alpha ∨
    b64encode bs = (byteSextets bs).map b64Alpha ++ [Char.ofNat 61] ∨
    b64encode bs = (byteSextets bs).map b64Alpha ++ [Char.ofNat 61, Char.ofNat 61]
  | [] => Or.inl rfl
  | [b1] => Or.inr (Or.inr (by simp [b64encode, byteSextets]))
  | [b1, b2] => Or.inr (Or.inl (by simp [b64encode, byteSextets]))
  | b1 :: b2 :: b3 :: rest => by
    rcases b64encode_pad_shape rest with h | h | h
    · exact Or.inl (by simp [b64encode, byteSextets, h])
    · exact Or.inr (Or.inl (by simp [b64encode, byteSextets, h]))
    · exact Or.inr (Or.inr (by simp [b64encode, byteSextets, h]))

/-- The padded encoder output always has length divisible by four. -/
theorem b64encode_len : ∀ bs : List Nat, (b64encode bs).length % 4 = 0
  | [] => rfl
  | [_] => by simp [b64encode]
  | [_, _] => by simp [b64encode]
  | _ :: _ :: _ :: rest => by
    have := b64encode_len rest
    simp only [b64encode, List.length_cons]
    omega

/-- The unpadded sextet stream never has length 1 modulo 4. -/
theorem byteSextets_len : ∀ bs : List Nat, (byteSextets bs).length % 4 ≠ 1
  | [] => by simp [byteSextets]
  | [_] => by simp [byteSextets]
  | [_, _] => by simp [byteSextets]
  | _ :: _ :: _ :: rest => by
    have := byteSextets_len rest
    simp only [byteSextets, List.length_cons]
    omega

/-- Stripping padding from a list with zero, one or two trailing padding
signs after a pad-free prefix recovers the prefix (stated on the reversed
list, the way `atobBytes` applies it). -/
theorem dropPadRev_cases (r : List Char) (hr : ∀ c ∈ r, c ≠ Char.ofNat 61) :
    dropPadRev (Char.ofNat 61) r = r ∧
    dropPadRev (Char.ofNat 61) (Char.ofNat 61 :: r) = r ∧
    dropPadRev (Char.ofNat 61) (Char.ofNat 61 :: Char.ofNat 61 :: r) = r := by
  refine ⟨?_, ?_, ?_⟩
  · cases r with
    | nil => rfl
    | cons c t =>
      have hc : (c == Char.ofNat 61) = false := by
        simp only [beq_eq_false_iff_ne, ne_eq]
        exact hr c (by simp)
      cases t with
      | nil => simp [dropPadRev, hc]
      | cons d t2 => simp [dropPadRev, hc]
  · cases r with
    | nil => simp [dropPadRev]
    | cons c t =>
      have hc : (c == Char.ofNat 61) = false := by
        simp only [beq_eq_false_iff_ne, ne_eq]
        exact hr c (by simp)
      simp [dropPadRev, hc]
  · simp [dropPadRev]

/-- Forgiving base64 inverts the padded encoder on byte streams. -/
theorem atobBytes_b64encode (bs : List Nat) (h : ∀ b ∈ bs, b < 256) :
    atobBytes (b64encode bs) = some bs := by
  have hsex := byteSextets_lt bs h
  have hnp : ∀ c ∈ (byteSextets bs).map b64Alpha, c ≠ Char.ofNat 61 := by
    intro c hc
    rw [List.mem_map] at hc
    obtain ⟨v, hv, rfl⟩ := hc
    exact b64Alpha_ne_pad v (hsex v hv)
  have hdrop := dropPadRev_cases ((byteSextets bs).map b64Alpha).reverse
    (fun c hc => hnp c (List.mem_reverse.mp hc))
  have hstrip : (dropPadRev (Char.ofNat 61) (b64encode bs).reverse).reverse =
      (byteSextets bs).map b64Alpha := by
    rcases b64encode_pad_shape bs with he | he | he
    · rw [he, hdrop.1, List.reverse_reverse]
    · rw [he]
      rw [show ((byteSextets bs).map b64Alpha ++ [Char.ofNat 61]).reverse =
        Char.ofNat 61 :: ((byteSextets bs).map b64Alpha).reverse from by simp]
      rw [hdrop.2.1, List.reverse_reverse]
    · rw [he]
      rw [show ((byteSextets bs).map b64Alpha ++ [Char.ofNat 61, Char.ofNat 61]).reverse =
        Char.ofNat 61 :: Char.ofNat 61 :: ((byteSextets bs).map b64Alpha).reverse from by simp]
      rw [hdrop.2.2, List.reverse_reverse]
  have hlen4 : ((b64encode bs).length % 4 == 0) = true := by
    simp [b64encode_len bs]
  have hlen1 : ¬ ((((byteSextets bs).map b64Alpha).length % 4 == 1) = true) := by
    simp only [beq_iff_eq, List.length_map]
    exact byteSextets_len bs
  simp only [atobBytes]
  rw [if_pos hlen4, hstrip, if_neg hlen1, mapCharVals_alpha _ hsex]
  rw [show (some (byteSextets bs)).map sextetsToBytes =
    some (sextetsToBytes (byteSextets bs)) from rfl]
  rw [sextetsToBytes_byteSextets bs h]

/-- The scalar-value ranges guaranteed by `Char` validity. -/
theorem char_valid_ranges (c : Char) :
    c.toNat < 0xD800 ∨ (0xE000 ≤ c.toNat ∧ c.toNat < 0x110000) := c.valid

set_option maxHeartbeats 1000000 in
/-- Decoder reduction: ASCII lead byte. -/
theorem utf8Decode_one (b : Nat) (bs : List Nat) (h : b < 0x80) :
    utf8Decode (b :: bs) = (utf8Decode bs).map (fun r => Char.ofNat b :: r) := by
  rw [utf8Decode.eq_def]
  simp only []
  rw [if_pos h]

set_option maxHeartbeats 1000000 in
/-- Decoder reduction: two-byte lead byte. -/
theorem utf8Decode_two (b b2 : Nat) (bs : List Nat)
    (h1 : ¬ b < 0x80) (h2 : 0xC2 ≤ b ∧ b ≤ 0xDF) :
    utf8Decode (b :: b2 :: bs) = utf8Dec2 b b2 (utf8Decode bs) := by
  rw [utf8Decode.eq_def]
  simp only []
  rw [if_neg h1, if_pos h2]

set_option maxHeartbeats 1000000 in
/-- Decoder reduction: three-byte lead byte. -/
theorem utf8Decode_three (b b2 b3 : Nat) (bs : List Nat)
    (h1 : ¬ b < 0x80) (h2 : ¬ (0xC2 ≤ b ∧ b ≤ 0xDF)) (h3 : 0xE0 ≤ b ∧ b ≤ 0xEF) :
    utf8Decode (b :: b2 :: b3 :: bs) = utf8Dec3 b b2 b3 (utf8Decode bs) := by
  rw [utf8Decode.eq_def]
  simp only []
  rw [if_neg h1, if_neg h2, if_pos h3]

set_option maxHeartbeats 1000000 in
/-- Decoder reduction: four-byte lead byte. -/
theorem utf8Decode_four (b b2 b3 b4 : Nat) (bs : List Nat)
    (h1 : ¬ b < 0x80) (h2 : ¬ (0xC2 ≤ b ∧ b ≤ 0xDF)) (h3 : ¬ (0xE0 ≤ b ∧ b ≤ 0xEF))
    (h4 : 0xF0 ≤ b ∧ b ≤ 0xF4) :
    utf8Decode (b :: b2 :: b3 :: b4 :: bs) = utf8Dec4 b b2 b3 b4 (utf8Decode bs) := by
  rw [utf8Decode.eq_def]
  simp only []
  rw [if_neg h1, if_neg h2, if_neg h3, if_pos h4]

/-- Every byte the character encoder emits is below 256. -/
theorem utf8EncodeChar_lt (c : Char) : ∀ b ∈ utf8EncodeChar c, b < 256 := by
  have hv := char_valid_ranges c
  intro b hb
  unfold utf8EncodeChar at hb
  split_ifs at hb with h1 h2 h3
  · simp only [List.mem_cons, List.not_mem_nil, or_false] at hb
    omega
  · simp only [List.mem_cons, List.not_mem_nil, or_false] at hb
    rcases hb with rfl | rfl <;> omega
  · simp only [List.mem_cons, List.not_mem_nil, or_false] at hb
    rcases hb with rfl | rfl | rfl <;> omega
  · simp only [List.mem_cons, List.not_mem_nil, or_false] at hb
    rcases hb with rfl | rfl | rfl | rfl <;> omega

/-- Every byte the text encoder emits is below 256. -/
theorem utf8Encode_lt : ∀ s : List Char, ∀ b ∈ utf8Encode s, b < 256 := by
  intro s
  induction s with
  | nil => intro b hb; simp [utf8Encode] at hb
  | cons c s ih =>
    intro b hb
    simp only [utf8Encode, List.mem_append] at hb
    rcases hb with hb | hb
    · exact utf8EncodeChar_lt c b hb
    · exact ih b hb

/-- Decoding an encoded character at the head of a byte stream peels off
exactly that character. -/
theorem utf8Decode_encodeChar (c : Char) (rest : List Nat) :
    utf8Decode (utf8EncodeChar c ++ rest) = (utf8Decode rest).map (fun r => c :: r) := by
  have hv := char_valid_ranges c
  have hc := Char.ofNat_toNat c
  by_cases h1 : c.toNat < 0x80
  · rw [show utf8EncodeChar c = [c.toNat] from by unfold utf8EncodeChar; rw [if_pos h1]]
    simp only [List.cons_append, List.nil_append]
    rw [utf8Decode_one _ _ h1]
    simp only [hc]
  · by_cases h2 : c.toNat < 0x800
    · rw [show utf8EncodeChar c = [0xC0 + c.toNat / 64, 0x80 + c.toNat % 64] from by
        unfold utf8EncodeChar; rw [if_neg h1, if_pos h2]]
      simp only [List.cons_append, List.nil_append]
      rw [utf8Decode_two _ _ _ (by omega) (by omega)]
      unfold utf8Dec2
      rw [if_pos (show isCont (0x80 + c.toNat % 64) = true from by
        simp only [isCont, Bool.and_eq_true, decide_eq_true_eq]
        omega)]
      simp only [show (0xC0 + c.toNat / 64 - 0xC0) * 64 + (0x80 + c.toNat % 64 - 0x80) =
        c.toNat from by omega, hc]
    · by_cases h3 : c.toNat < 0x10000
      · rw [show utf8EncodeChar c =
          [0xE0 + c.toNat / 4096, 0x80 + (c.toNat / 64) % 64, 0x80 + c.toNat % 64] from by
          unfold utf8EncodeChar; rw [if_neg h1, if_neg h2, if_pos h3]]
        simp only [List.cons_append, List.nil_append]
        rw [utf8Decode_three _ _ _ _ (by omega) (by omega) (by omega)]
        unfold utf8Dec3
        rw [if_pos (show _ = true from by
          simp only [isCont, Bool.and_eq_true, decide_eq_true_eq]
          refine ⟨⟨?_, ?_⟩, ?_⟩ <;> (first | (split_ifs <;> omega) | omega))]
        simp only [show (0xE0 + c.toNat / 4096 - 0xE0) * 4096 +
          (0x80 + (c.toNat / 64) % 64 - 0x80) * 64 + (0x80 + c.toNat % 64 - 0x80) =
          c.toNat from by omega, hc]
      · rw [show utf8EncodeChar c =
          [0xF0 + c.toNat / 262144, 0x80 + (c.toNat / 4096) % 64,
           0x80 + (c.toNat / 64) % 64, 0x80 + c.toNat % 64] from by
          unfold utf8EncodeChar; rw [if_neg h1, if_neg h2, if_neg h3]]
        simp only [List.cons_append, List.nil_append]
        rw [utf8Decode_four _ _ _ _ _ (by omega) (by omega) (by omega) (by omega)]
        unfold utf8Dec4
        rw [if_pos (show _ = true from by
          simp only [isCont, Bool.and_eq_true, decide_eq_true_eq]
          refine ⟨⟨⟨?_, ?_⟩, ?_⟩, ?_⟩ <;> (first | (split_ifs <;> omega) | omega))]
        simp only [show (0xF0 + c.toNat / 262144 - 0xF0) * 262144 +
          (0x80 + (c.toNat / 4096) % 64 - 0x80) * 4096 +
          (0x80 + (c.toNat / 64) % 64 - 0x80) * 64 + (0x80 + c.toNat % 64 - 0x80) =
          c.toNat from by omega, hc]

/-- The strict decoder inverts the UTF-8 encoder. -/
theorem utf8Decode_utf8Encode : ∀ s : List Char, utf8Decode (utf8Encode s) = some s
  | [] => rfl
  | c :: s => by
    rw [show utf8Encode (c :: s) = utf8EncodeChar c ++ utf8Encode s from rfl]
    rw [utf8Decode_encodeChar c (utf8Encode s), utf8Decode_utf8Encode s]
    rfl

/-- The padding sign is not whitespace. -/
theorem pad_not_ws : jsWhitespace (Char.ofNat 61) = false := by decide

/-- No character of the encoder output is JavaScript whitespace, so the
whitespace strip of `decodeBase64Content` leaves it unchanged. -/
theorem filter_ws_b64encode : ∀ bs : List Nat,
    (b64encode bs).filter (fun c => !jsWhitespace c) = b64encode bs
  | [] => rfl
  | [b1] => by simp [b64encode, List.filter_cons, b64Alpha_not_ws, pad_not_ws]
  | [b1, b2] => by simp [b64encode, List.filter_cons, b64Alpha_not_ws, pad_not_ws]
  | b1 :: b2 :: b3 :: rest => by
    simp only [b64encode, List.filter_cons, b64Alpha_not_ws, Bool.not_false, if_pos]
    rw [filter_ws_b64encode rest]

/-- C6 (amended): decoding the base64 encoding of the UTF-8 bytes of any
text yields the text back; and when the encoded byte stream is not valid
UTF-8 the decoder returns, without throwing, the single-byte-per-character
reading of the `latin1`-labelled WHATWG decoder — windows-1252, which agrees
with the Latin-1 byte-to-code-point map except on bytes 0x80-0x9F. -/
theorem base64_round_trip (s : List Char) (bs : List Nat)
    (hbs : ∀ b ∈ bs, b < 256) (hinv : utf8Decode bs = none) :
    decodeBase64Content (b64encode (utf8Encode s)) = s ∧
    decodeBase64Content (b64encode bs) = latin1Decode bs := by
  constructor
  · simp only [decodeBase64Content]
    rw [filter_ws_b64encode, atobBytes_b64encode _ (utf8Encode_lt s)]
    simp only [utf8Decode_utf8Encode s]
  · simp only [decodeBase64Content]
    rw [filter_ws_b64encode, atobBytes_b64encode bs hbs]
    simp only [hinv]

/-- Witness for C6 on a concrete text with multi-byte characters and a
concrete invalid-UTF-8 byte stream that includes a windows-1252-remapped
byte (0x93). -/
theorem base64_round_trip_witness :
    decodeBase64Content (b64encode (utf8Encode ("héllo✓🔽" : String).data)) =
      ("héllo✓🔽" : String).data ∧
    decodeBase64Content (b64encode [0x93, 0xFF]) = latin1Decode [0x93, 0xFF] :=
  base64_round_trip (("héllo✓🔽" : String).data) [0x93, 0xFF]
    (by decide) (by decide)

/-- Counterexample to C6 as stated: the byte 0x93 is not valid UTF-8, and
the program's fallback decoder (the `latin1` label, i.e. windows-1252)
turns it into U+201C, not the code point 0x93 that the claimed Latin-1
byte-to-code-point interpretation would give. -/
theorem base64_latin1_label_cex :
    utf8Decode [0x93] = none ∧
    decodeBase64Content (b64encode [0x93]) = [Char.ofNat 0x201C] ∧
    decodeBase64Content (b64encode [0x93]) ≠ [Char.ofNat 0x93] := by
  refine ⟨by decide, by decide, by decide⟩

end Worker
